import Mathlib

/-!
Verification development for the gisquick disk project storage
(internal/infrastructure/project/disk_storage.go).

The Go code is shallowly embedded: the in-memory files index
(`FilesIndex`, a Go `map[string]FileInfo` guarded by a mutex) is
modelled as an association list queried through `FilesIndex.Get`
(extensionally, the Go map); filesystem state is modelled explicitly
as a list of (path, file) entries with directories existing implicitly
as path prefixes; JSON documents are modelled by an inductive `Json`
type; the SHA-1 stream hash and the external dbhash subprocess are
modelled as function/value parameters (their outputs, not their
internals, are what the code under verification manipulates).
Machine integers (Go int64) are modelled as `Int`; none of the modelled
quantities can overflow in the source (file sizes and epoch seconds).
I/O primitives that the claims do not exercise (file create/write
failures, config-file persistence failures) are modelled as succeeding;
the failure modes the code inspects explicitly (absent file on open,
JSON parse failure, subprocess failure, upload-stream exhaustion) are
modelled faithfully.
-/

/-- One file's recorded identity, Go struct `FileInfo`
(fields `hash`, `size`, `mtime` with those JSON tags). -/
structure FileInfo where
  hash : String
  size : Int
  mtime : Int
deriving DecidableEq, Repr

/-- The in-memory files index: Go `FilesIndex.Index : map[string]FileInfo`,
modelled extensionally as an association list (first binding wins,
matching map semantics through `FilesIndex.Get`). -/
abbrev FilesIndex := List (String × FileInfo)

/-- Go `strings.HasPrefix(s, pre)`, on the character lists. -/
def goStartsWith (s pre : String) : Bool :=
  pre.data.isPrefixOf s.data

/-- Go `strings.HasSuffix(s, suf)`, on the reversed character lists. -/
def goEndsWith (s suf : String) : Bool :=
  suf.data.reverse.isPrefixOf s.data.reverse

/-- Go `strings.TrimSuffix(s, suf)`: removes one trailing occurrence
of `suf` when present. -/
def trimSuffix (s suf : String) : String :=
  if goEndsWith s suf then String.mk (s.data.take (s.data.length - suf.data.length)) else s

/-- Go `FilesIndex.Get` (map lookup under the read lock). -/
def FilesIndex.Get : FilesIndex → String → Option FileInfo
  | [], _ => none
  | e :: rest, path => if e.1 = path then some e.2 else FilesIndex.Get rest path

/-- Go `delete(fi.Index, path)` (map key removal), extensional form. -/
def FilesIndex.Delete : FilesIndex → String → FilesIndex
  | [], _ => []
  | e :: rest, path => if e.1 = path then FilesIndex.Delete rest path else e :: FilesIndex.Delete rest path

/-- Go `fi.Index[path] = info` (map assignment), extensional form. -/
def FilesIndex.Set (idx : FilesIndex) (path : String) (info : FileInfo) : FilesIndex :=
  (path, info) :: FilesIndex.Delete idx path

/-- Helper for `DeleteDir`: drops every entry whose key has the given
string as a prefix (the loop over `fi.Index` deleting matching keys). -/
def FilesIndex.dropUnder : FilesIndex → String → FilesIndex
  | [], _ => []
  | e :: rest, pre =>
    if goStartsWith e.1 pre then FilesIndex.dropUnder rest pre
    else e :: FilesIndex.dropUnder rest pre

/-- Go `FilesIndex.DeleteDir(dirPath)`: computes
`dirPrefix := TrimSuffix(dirPath, sep) + sep` (separator is `/` on the
target platform) and deletes every entry whose path has that prefix. -/
def FilesIndex.DeleteDir (idx : FilesIndex) (dirPath : String) : FilesIndex :=
  FilesIndex.dropUnder idx (trimSuffix dirPath "/" ++ "/")

/-- Go `FilesIndex.TotalSize()`: sum of entry sizes. -/
def FilesIndex.TotalSize (idx : FilesIndex) : Int :=
  idx.foldl (fun s e => s + e.2.size) 0

theorem trimSuffix_keep (s suf : String) (h : goEndsWith s suf = false) :
    trimSuffix s suf = s := by
  simp [trimSuffix, h]

theorem get_dropUnder (idx : FilesIndex) (pre p : String) :
    FilesIndex.Get (FilesIndex.dropUnder idx pre) p =
      if goStartsWith p pre then none else FilesIndex.Get idx p := by
  induction idx with
  | nil =>
    by_cases hq : goStartsWith p pre = true <;>
      simp [FilesIndex.dropUnder, FilesIndex.Get, hq]
  | cons e rest ih =>
    by_cases hep : e.1 = p
    · subst hep
      by_cases he : goStartsWith e.1 pre = true
      · simp [FilesIndex.dropUnder, he, ih]
      · simp [FilesIndex.dropUnder, FilesIndex.Get, he]
    · by_cases he : goStartsWith e.1 pre = true
      · rw [FilesIndex.dropUnder]
        simp only [he, if_true]
        rw [ih, FilesIndex.Get]
        simp [hep]
      · rw [FilesIndex.dropUnder]
        simp only [he]
        rw [if_neg (by simp [he]), FilesIndex.Get, if_neg hep, ih, FilesIndex.Get, if_neg hep]

theorem get_delete (idx : FilesIndex) (p q : String) :
    FilesIndex.Get (FilesIndex.Delete idx p) q =
      if q = p then none else FilesIndex.Get idx q := by
  induction idx with
  | nil => by_cases hq : q = p <;> simp [FilesIndex.Delete, FilesIndex.Get, hq]
  | cons e rest ih =>
    by_cases hep : e.1 = p
    · rw [FilesIndex.Delete, if_pos hep, ih]
      by_cases hq : q = p
      · simp [hq]
      · rw [if_neg hq, FilesIndex.Get,
          if_neg (show ¬(e.1 = q) from fun h => hq (h.symm.trans hep)), if_neg hq]
    · rw [FilesIndex.Delete, if_neg hep, FilesIndex.Get]
      by_cases heq : e.1 = q
      · rw [if_pos heq, if_neg (fun h => hep (heq.trans h)), FilesIndex.Get, if_pos heq]
      · rw [if_neg heq, ih, FilesIndex.Get, if_neg heq]

theorem delete_delete (idx : FilesIndex) (p : String) :
    FilesIndex.Delete (FilesIndex.Delete idx p) p = FilesIndex.Delete idx p := by
  induction idx with
  | nil => rfl
  | cons e rest ih =>
    by_cases hep : e.1 = p
    · rw [FilesIndex.Delete, if_pos hep, ih]
    · rw [FilesIndex.Delete, if_neg hep, FilesIndex.Delete, if_neg hep, ih]

theorem get_set (idx : FilesIndex) (p q : String) (v : FileInfo) :
    FilesIndex.Get (FilesIndex.Set idx p v) q =
      if q = p then some v else FilesIndex.Get idx q := by
  rw [FilesIndex.Set, FilesIndex.Get]
  by_cases hq : q = p
  · rw [if_pos hq.symm, if_pos hq]
  · rw [if_neg (fun h => hq h.symm), if_neg hq, get_delete, if_neg hq]

/-- Concrete file records used by witnesses and counterexamples. -/
def fiA : FileInfo := ⟨"h1", 1, 10⟩

def fiB : FileInfo := ⟨"h2", 2, 20⟩

def fiC : FileInfo := ⟨"h3", 3, 30⟩

/-- C8: `DeleteDir(d)` removes exactly the index entries whose path has
`d` followed by the path separator as a prefix, and preserves every
entry whose path merely starts with the same characters without the
separator. Hypothesis: the directory argument itself does not carry a
trailing separator (the form the claim's examples use, e.g. `a/b`). -/
theorem c8_deleteDir_removes_subtree (idx : FilesIndex) (d p : String)
    (h : goEndsWith d "/" = false) :
    FilesIndex.Get (FilesIndex.DeleteDir idx d) p =
      if goStartsWith p (d ++ "/") then none else FilesIndex.Get idx p := by
  rw [FilesIndex.DeleteDir, trimSuffix_keep d "/" h, get_dropUnder]

/-- Witness for C8 at `d = "a/b"`: the entry under `a/b/` is removed
while the sibling `a/bx` is preserved. -/
theorem c8_deleteDir_witness :
    goEndsWith "a/b" "/" = false
    ∧ FilesIndex.Get
        (FilesIndex.DeleteDir [("a/b/x", fiA), ("a/bx", fiB), ("a/b-extra", fiC)] "a/b")
        "a/b/x" =
      (if goStartsWith "a/b/x" ("a/b" ++ "/") then none
       else FilesIndex.Get [("a/b/x", fiA), ("a/bx", fiB), ("a/b-extra", fiC)] "a/b/x")
    ∧ FilesIndex.Get
        (FilesIndex.DeleteDir [("a/b/x", fiA), ("a/bx", fiB), ("a/b-extra", fiC)] "a/b")
        "a/bx" =
      (if goStartsWith "a/bx" ("a/b" ++ "/") then none
       else FilesIndex.Get [("a/b/x", fiA), ("a/bx", fiB), ("a/b-extra", fiC)] "a/bx") :=
  ⟨by decide,
   c8_deleteDir_removes_subtree [("a/b/x", fiA), ("a/bx", fiB), ("a/b-extra", fiC)] "a/b" "a/b/x"
     (by decide),
   c8_deleteDir_removes_subtree [("a/b/x", fiA), ("a/bx", fiB), ("a/b-extra", fiC)] "a/b" "a/bx"
     (by decide)⟩

/-- JSON values, as far as the index snapshot uses them. -/
inductive Json where
  | str (s : String)
  | num (n : Int)
  | obj (fields : List (String × Json))

/-- Go `encoding/json` marshalling of a `FileInfo` value
(struct tags `hash`, `size`, `mtime`). -/
def encodeFileInfo (fi : FileInfo) : Json :=
  .obj [("hash", .str fi.hash), ("size", .num fi.size), ("mtime", .num fi.mtime)]

/-- Go marshalling of the plain map `map[string]FileInfo`: a JSON
object keyed by relative path. This is what the eviction callback
persists (`saveJsonFile(..., index.Index)`). -/
def encodeIndexMap (idx : FilesIndex) : Json :=
  .obj (idx.map (fun e => (e.1, encodeFileInfo e.2)))

/-- Go marshalling of the whole `*FilesIndex` struct, which is what
`UpdateFiles` and `RemoveFiles` pass to `saveJsonFile`: the embedded
`sync.RWMutex` contributes no exported fields, and the exported `Index`
field (no JSON tag) is emitted under the key `"Index"`. -/
def encodeFilesIndexStruct (idx : FilesIndex) : Json :=
  .obj [("Index", encodeIndexMap idx)]

/-- Go unmarshalling of one JSON value into `FileInfo`: starts from the
zero value, fills the tagged fields, errors on a type mismatch for a
known field, and silently skips unknown fields (encoding/json default). -/
def decodeFileInfoFields : List (String × Json) → FileInfo → Option FileInfo
  | [], acc => some acc
  | (k, v) :: rest, acc =>
    if k = "hash" then
      match v with
      | .str s => decodeFileInfoFields rest ⟨s, acc.size, acc.mtime⟩
      | _ => none
    else if k = "size" then
      match v with
      | .num n => decodeFileInfoFields rest ⟨acc.hash, n, acc.mtime⟩
      | _ => none
    else if k = "mtime" then
      match v with
      | .num n => decodeFileInfoFields rest ⟨acc.hash, acc.size, n⟩
      | _ => none
    else decodeFileInfoFields rest acc

def decodeFileInfo (j : Json) : Option FileInfo :=
  match j with
  | .obj fields => decodeFileInfoFields fields ⟨"", 0, 0⟩
  | _ => none

def decodeEntries : List (String × Json) → Option FilesIndex
  | [] => some []
  | (k, v) :: rest =>
    match decodeFileInfo v with
    | none => none
    | some fi =>
      match decodeEntries rest with
      | none => none
      | some m => some ((k, fi) :: m)

/-- Go unmarshalling into `map[string]FileInfo`, the type
`loadFilesIndex` decodes the snapshot file into. -/
def decodeIndexMap (j : Json) : Option FilesIndex :=
  match j with
  | .obj fields => decodeEntries fields
  | _ => none

/-- C1 (code bug): persisting the snapshot the way `UpdateFiles` and
`RemoveFiles` do — passing the whole `*FilesIndex` struct to
`saveJsonFile` — produces `{"Index": {...}}`, which `loadFilesIndex`
then decodes into the single-entry map `{"Index" ↦ zero FileInfo}`
instead of the original path→FileInfo mapping; the eviction callback's
encoding of `index.Index` (third conjunct) round-trips correctly,
showing the flat object is the intended snapshot format. -/
theorem c1_snapshot_roundtrip_broken :
    decodeIndexMap (encodeFilesIndexStruct [("a.txt", ⟨"h1", 10, 100⟩)]) =
      some [("Index", ⟨"", 0, 0⟩)]
    ∧ decodeIndexMap (encodeFilesIndexStruct [("a.txt", ⟨"h1", 10, 100⟩)]) ≠
      some [("a.txt", ⟨"h1", 10, 100⟩)]
    ∧ decodeIndexMap (encodeIndexMap [("a.txt", ⟨"h1", 10, 100⟩)]) =
      some [("a.txt", ⟨"h1", 10, 100⟩)] :=
  ⟨rfl, by decide, rfl⟩

/-- Go `filepath.Ext(path)`: the suffix of the final path element
starting at its final dot; scans backwards until a separator. -/
def goExtAux : List Char → List Char → String
  | _, [] => ""
  | acc, c :: rest =>
    if c = '/' then ""
    else if c = '.' then String.mk ('.' :: acc)
    else goExtAux (c :: acc) rest

def goExt (p : String) : String :=
  goExtAux [] p.data.reverse

/-- Go `strings.ToLower` restricted to ASCII (the extensions compared
are ASCII). -/
def charLower (c : Char) : Char :=
  if 'A' ≤ c ∧ c ≤ 'Z' then Char.ofNat (c.toNat + 32) else c

def strLower (s : String) : String :=
  String.mk (s.data.map charLower)

/-- Go `strings.Split(out, " ")[0]`: everything before the first space
character (the whole string when it has no space). -/
def dbhashFirstTok (out : String) : String :=
  String.mk (out.data.takeWhile (fun c => !(c == ' ')))

/-- The claim's own notion, written from its words: the first
whitespace-delimited token of the tool output. -/
def firstWsTok (out : String) : String :=
  String.mk
    ((out.data.dropWhile (fun c => c == ' ' || c == '\t' || c == '\n' || c == '\r')).takeWhile
      (fun c => !(c == ' ' || c == '\t' || c == '\n' || c == '\r')))

/-- One lowercase hex digit of `fmt.Sprintf("%x", ...)`. -/
def hexDigit : Nat → Char
  | 0 => '0' | 1 => '1' | 2 => '2' | 3 => '3' | 4 => '4' | 5 => '5' | 6 => '6' | 7 => '7'
  | 8 => '8' | 9 => '9' | 10 => 'a' | 11 => 'b' | 12 => 'c' | 13 => 'd' | 14 => 'e'
  | 15 => 'f' | _ => '0'

/-- One byte rendered by `fmt.Sprintf("%x", ...)`: two hex digits. -/
def hexByte (b : Nat) : List Char :=
  [hexDigit (b / 16 % 16), hexDigit (b % 16)]

/-- Hex rendering of a digest byte sequence, as `fmt.Sprintf("%x",
h.Sum(nil))` produces in `Sha1`. -/
def hexEncode (bytes : List Nat) : String :=
  String.mk ((bytes.map hexByte).flatten)

/-- Go `DBHash(path)`: runs the external tool; on success takes
`strings.Split(output, " ")[0]`, on failure returns `("", err)`. The
subprocess outcome is the `toolOut` parameter. Result is (token, errored). -/
def DBHash (toolOut : Option String) : String × Bool :=
  match toolOut with
  | none => ("", true)
  | some out => (dbhashFirstTok out, false)

/-- Go `Checksum(path)`: `".gpkg"` extension (lower-cased) selects
`DBHash` with the `"dbhash:"` tag, otherwise the SHA-1 stream hash
(whose digest bytes, when the file is readable, are `sha1Res`).
Result is (token, errored). -/
def Checksum (path : String) (toolOut : Option String) (sha1Res : Option (List Nat)) :
    String × Bool :=
  if strLower (goExt path) = ".gpkg" then
    ("dbhash:" ++ (DBHash toolOut).1, (DBHash toolOut).2)
  else
    match sha1Res with
    | none => ("", true)
    | some d => (hexEncode d, false)

theorem digitChar_ne_h (n : Nat) : hexDigit n ≠ 'h' := by
  unfold hexDigit
  split <;> decide

theorem hexEncode_ne_h (bs : List Nat) (c : Char) (h : c ∈ (hexEncode bs).data) :
    c ≠ 'h' := by
  simp only [hexEncode] at h
  rcases List.mem_flatten.mp h with ⟨l, hl, hc⟩
  rcases List.mem_map.mp hl with ⟨b, _, rfl⟩
  simp only [hexByte, List.mem_cons, List.not_mem_nil, or_false] at hc
  rcases hc with rfl | rfl <;> exact digitChar_ne_h _

/-- No string tagged `"dbhash:"` equals a hex digest: the tag's third
character `h` is outside the hex alphabet. -/
theorem dbhash_tag_ne_hex (t : String) (bs : List Nat) :
    "dbhash:" ++ t ≠ hexEncode bs := by
  intro h
  have hmem : 'h' ∈ ("dbhash:" ++ t).data := by
    have hdata : ("dbhash:" ++ t).data = "dbhash:".data ++ t.data := rfl
    rw [hdata]
    exact List.mem_append_left _ (by decide)
  rw [h] at hmem
  exact hexEncode_ne_h bs 'h' hmem rfl

/-- C9 counterexample: `DBHash` takes everything before the first
*space* (`strings.Split(out, " ")[0]`), not the first
whitespace-delimited token; a tool output whose hash is followed by a
newline before any space refutes the claim as stated. -/
theorem c9_counterexample :
    Checksum "x.gpkg" (some "ab\ncd ef") none = ("dbhash:ab\ncd", false)
    ∧ "dbhash:" ++ firstWsTok "ab\ncd ef" = "dbhash:ab"
    ∧ ("dbhash:ab\ncd" : String) ≠ "dbhash:ab" :=
  ⟨by decide, by decide, by decide⟩

/-- C9 amended: for a `.gpkg` path (extension compared lower-cased) a
successful `Checksum` is `"dbhash:"` plus the tool output's first
space-delimited token; otherwise it is the hex digest of the SHA-1
stream hash; and no `"dbhash:"`-tagged token ever equals a hex digest. -/
theorem c9_checksum_formats (path out : String) (toolOut : Option String)
    (sha1Res : Option (List Nat)) (d : List Nat) :
    (strLower (goExt path) = ".gpkg" →
      Checksum path (some out) sha1Res = ("dbhash:" ++ dbhashFirstTok out, false))
    ∧ (strLower (goExt path) ≠ ".gpkg" →
      Checksum path toolOut (some d) = (hexEncode d, false))
    ∧ ∀ t : String, ∀ bs : List Nat, "dbhash:" ++ t ≠ hexEncode bs :=
  ⟨fun h => by simp [Checksum, h, DBHash],
   fun h => by simp [Checksum, h],
   dbhash_tag_ne_hex⟩

/-- Witness for C9 at a mixed-case `.GPKG` path and a plain text path. -/
theorem c9_checksum_witness :
    strLower (goExt "P.GPKG") = ".gpkg"
    ∧ Checksum "P.GPKG" (some "h1 data.gpkg") none =
        ("dbhash:" ++ dbhashFirstTok "h1 data.gpkg", false)
    ∧ strLower (goExt "a.txt") ≠ ".gpkg"
    ∧ Checksum "a.txt" none (some [171, 205]) = (hexEncode [171, 205], false)
    ∧ "dbhash:" ++ "abc" ≠ hexEncode [171, 205] :=
  ⟨by decide,
   (c9_checksum_formats "P.GPKG" "h1 data.gpkg" none none [171, 205]).1 (by decide),
   by decide,
   (c9_checksum_formats "a.txt" "" none (some [171, 205]) [171, 205]).2.1 (by decide),
   (c9_checksum_formats "a.txt" "" none none [171, 205]).2.2 "abc" [171, 205]⟩

/-- One on-disk regular file: content bytes and modification time. -/
structure FsFile where
  content : List Nat
  mtime : Int
deriving DecidableEq, Repr

/-- The project's on-disk tree, as (relative path ↦ file); directories
exist implicitly as proper prefixes of stored paths. -/
abbrev Fs := List (String × FsFile)

def fsLookup : Fs → String → Option FsFile
  | [], _ => none
  | e :: rest, p => if e.1 = p then some e.2 else fsLookup rest p

/-- A path names a directory when some stored file lies strictly below it. -/
def fsIsDir (fs : Fs) (p : String) : Bool :=
  fs.any (fun e => goStartsWith e.1 (p ++ "/"))

/-- Go `os.Lstat` succeeding: the path is a stored file or an implicit
directory; otherwise Lstat fails with `os.ErrNotExist`. -/
def fsLstatExists (fs : Fs) (p : String) : Bool :=
  (fsLookup fs p).isSome || fsIsDir fs p

/-- Go `saveToFile2`: creates/overwrites the file; the resulting on-disk
modification time is supplied by the environment. -/
def fsWrite (fs : Fs) (p : String) (content : List Nat) (mtime : Int) : Fs :=
  (p, ⟨content, mtime⟩) :: fs.filter (fun e => !(e.1 == p))

/-- Go `os.Remove` of a plain file. -/
def fsRemoveFile (fs : Fs) (p : String) : Fs :=
  fs.filter (fun e => !(e.1 == p))

/-- Go `os.RemoveAll` of a directory: the path and everything below it. -/
def fsRemoveAll (fs : Fs) (p : String) : Fs :=
  fs.filter (fun e => !(e.1 == p || goStartsWith e.1 (p ++ "/")))

/-- Go `domain.ProjectInfo`, the fields this file reads and writes
(title, qgisFile, projection, state, size, created, lastUpdate,
thumbnail, authentication); timestamps as epoch seconds. -/
structure ProjectInfo where
  title : String
  qgisFile : String
  projection : String
  state : String
  size : Int
  created : Int
  lastUpdate : Int
  thumbnail : Bool
  authentication : String
deriving DecidableEq, Repr

/-- Go `domain.ProjectFile`: one entry of a returned file listing. -/
structure ProjectFile where
  path : String
  hash : String
  size : Int
  mtime : Int
deriving DecidableEq, Repr

/-- One declared update of a `domain.FilesChanges` batch (fields used
by this file: Path, Hash, Size). -/
structure DeclaredFile where
  path : String
  hash : String
  size : Int
deriving DecidableEq, Repr

/-- Go `domain.FilesChanges`: declared updates (ordered) and removals. -/
structure FilesChanges where
  updates : List DeclaredFile
  removes : List String
deriving DecidableEq, Repr

/-- Error taxonomy surfaced by the modelled operations. -/
inductive StorageErr where
  | projectSize
  | uploadRead
  | declaredSizeMismatch (path : String)
  | removeFailed (path : String)
  | checksumFailed
  | parseFailed
  | invalidQgisMeta
deriving DecidableEq, Repr

/-- Go pair `([]domain.ProjectFile, error)` plus the mutated shared
state: the cached index (mutations persist across error returns), the
on-disk tree, and the persisted project record. Both `files` and `err`
can independently be nil, exactly as in Go. -/
structure UpdateResult where
  files : Option (List ProjectFile)
  err : Option StorageErr
  index : FilesIndex
  fs : Fs
  project : ProjectInfo
deriving DecidableEq, Repr

/-- Go `calcNewSize`: snapshot current per-path sizes, drop the paths
named in `removes`, overwrite/insert the sizes declared in `updates`,
and sum — all without touching disk. -/
def calcNewSize (idx : FilesIndex) (info : FilesChanges) : Int :=
  let m0 := idx.map (fun e => (e.1, e.2.size))
  let m1 := info.removes.foldl (fun m p => m.filter (fun e => !(e.1 == p))) m0
  let m2 := info.updates.foldl
    (fun m f => (f.path, f.size) :: m.filter (fun e => !(e.1 == f.path))) m1
  m2.foldl (fun s e => s + e.2) 0

/-- Go `indexProjectFilesList`: the reconciled listing built from the
index (order unspecified in the source; list order here). -/
def indexProjectFilesList (idx : FilesIndex) : List ProjectFile :=
  idx.map (fun e => ⟨e.1, e.2.hash, e.2.size, e.2.mtime⟩)

/-- The update loop of `UpdateFiles` (lines 762-792): for each declared
update pull the next (path, stream) pair; a missing pair is the stream
read error; a pulled path differing from the declared one aborts the
batch returning the *nil* `err` from the successful `next()` call (the
source's `return nil, err` at line 769); otherwise write the content
(`saveToFile2`), compare the declared size with the on-disk size, and
publish the entry (computed hash, declared size, on-disk mtime) to the
index. Outcome `some e` aborts the batch with Go error value `e`
(itself an `Option`, since the mismatch abort carries a nil error);
`none` means the loop completed. -/
def processUpdates (hashFn : List Nat → String) (mtimeAt : Nat → Int) :
    List DeclaredFile → List (String × List Nat) → Nat → FilesIndex → Fs →
    FilesIndex × Fs × Option (Option StorageErr)
  | [], _, _, idx, fs => (idx, fs, none)
  | _ :: _, [], _, idx, fs => (idx, fs, some (some .uploadRead))
  | df :: rest, (path, content) :: nrest, i, idx, fs =>
    if df.path ≠ path then
      (idx, fs, some none)
    else
      let fs2 := fsWrite fs path content (mtimeAt i)
      if df.size ≠ (content.length : Int) then
        (idx, fs2, some (some (.declaredSizeMismatch path)))
      else
        processUpdates hashFn mtimeAt rest nrest (i + 1)
          (FilesIndex.Set idx path ⟨hashFn content, df.size, mtimeAt i⟩) fs2

/-- The removal loop of `UpdateFiles` (lines 793-814): a target that
fails `Lstat` with `ErrNotExist` is a no-op apart from dropping its
index entry; a directory is removed recursively together with its index
subtree; a plain file is removed with its single entry. -/
def processRemoves : List String → FilesIndex → Fs → FilesIndex × Fs
  | [], idx, fs => (idx, fs)
  | p :: rest, idx, fs =>
    if fsLstatExists fs p = false then
      processRemoves rest (FilesIndex.Delete idx p) fs
    else if fsIsDir fs p then
      processRemoves rest (FilesIndex.DeleteDir idx p) (fsRemoveAll fs p)
    else
      processRemoves rest (FilesIndex.Delete idx p) (fsRemoveFile fs p)

/-- Go `DiskStorage.UpdateFiles` (lines 731-829): quota check on the
projected size (only when updates are declared and a positive maximum
is configured), update loop, removal loop, snapshot persistence
(modelled as succeeding), size recomputation, empty→staged transition,
lastUpdate stamp, and the reconciled listing. -/
def UpdateFiles (maxProjectSize : Int) (hashFn : List Nat → String) (mtimeAt : Nat → Int)
    (now : Int) (project : ProjectInfo) (idx : FilesIndex) (fs : Fs)
    (info : FilesChanges) (next : List (String × List Nat)) : UpdateResult :=
  if 0 < info.updates.length ∧ 0 < maxProjectSize ∧ maxProjectSize < calcNewSize idx info then
    ⟨none, some .projectSize, idx, fs, project⟩
  else
    match processUpdates hashFn mtimeAt info.updates next 0 idx fs with
    | (idx2, fs2, some e) => ⟨none, e, idx2, fs2, project⟩
    | (idx2, fs2, none) =>
      match processRemoves info.removes idx2 fs2 with
      | (idx3, fs3) =>
        ⟨some (indexProjectFilesList idx3), none, idx3, fs3,
         ⟨project.title, project.qgisFile, project.projection,
          (if project.state = "empty" then "staged" else project.state),
          FilesIndex.TotalSize idx3, project.created, now, project.thumbnail,
          project.authentication⟩⟩

/-- The removal loop of `RemoveFiles` (lines 840-857): unlike the one
in `UpdateFiles`, any `Lstat` failure — including `ErrNotExist` — is
returned as an error aborting the batch. -/
def processRemovesStandalone : List String → FilesIndex → Fs →
    FilesIndex × Fs × Option StorageErr
  | [], idx, fs => (idx, fs, none)
  | p :: rest, idx, fs =>
    if fsLstatExists fs p = false then
      (idx, fs, some (.removeFailed p))
    else if fsIsDir fs p then
      processRemovesStandalone rest (FilesIndex.DeleteDir idx p) (fsRemoveAll fs p)
    else
      processRemovesStandalone rest (FilesIndex.Delete idx p) (fsRemoveFile fs p)

/-- Go `DiskStorage.RemoveFiles` (lines 831-867): standalone removals,
snapshot persistence, size and lastUpdate update (no state transition). -/
def RemoveFiles (now : Int) (project : ProjectInfo) (idx : FilesIndex) (fs : Fs)
    (files : List String) : UpdateResult :=
  match processRemovesStandalone files idx fs with
  | (idx2, fs2, some e) => ⟨none, some e, idx2, fs2, project⟩
  | (idx2, fs2, none) =>
    ⟨some (indexProjectFilesList idx2), none, idx2, fs2,
     ⟨project.title, project.qgisFile, project.projection, project.state,
      FilesIndex.TotalSize idx2, project.created, now, project.thumbnail,
      project.authentication⟩⟩

/-- Concrete project records used by witnesses and counterexamples. -/
def projEmptyW : ProjectInfo := ⟨"T", "p.qgs", "EPSG:4326", "empty", 0, 1, 2, false, ""⟩

def projStagedW : ProjectInfo := ⟨"T", "p.qgs", "EPSG:4326", "staged", 3, 1, 2, true, "private"⟩

/-- C2 (code bug): when the upload source yields `b.txt` while the next
declared update is `a.txt`, `UpdateFiles` aborts the batch — nothing is
written, and no index entry beyond those already applied is added — but
it returns the *nil* error from the preceding successful `next()` call
(`return nil, err` at disk_storage.go:769), so the caller sees a nil
file list with a nil error instead of an IntegrityMismatch. -/
theorem c2_mismatch_nil_error :
    UpdateFiles 0 (fun _ => "H") (fun _ => 5) 9 projEmptyW [("old.txt", fiA)] []
      ⟨[⟨"a.txt", "", 1⟩], []⟩ [("b.txt", [65])] =
    ⟨none, none, [("old.txt", fiA)], [], projEmptyW⟩ := by
  decide

/-- C4: with a positive configured maximum, a batch with declared
updates whose projected size exceeds the maximum is rejected wholesale
with SizeLimitExceeded before any filesystem or index mutation, while a
removal-only batch is never rejected on size. -/
theorem c4_size_limit (maxS : Int) (hashFn : List Nat → String) (mtimeAt : Nat → Int)
    (now : Int) (proj : ProjectInfo) (idx : FilesIndex) (fs : Fs) (info : FilesChanges)
    (next : List (String × List Nat)) :
    (0 < maxS → info.updates ≠ [] → maxS < calcNewSize idx info →
      UpdateFiles maxS hashFn mtimeAt now proj idx fs info next =
        ⟨none, some .projectSize, idx, fs, proj⟩)
    ∧ (info.updates = [] →
      (UpdateFiles maxS hashFn mtimeAt now proj idx fs info next).err ≠
        some .projectSize) := by
  constructor
  · intro h1 h2 h3
    rw [UpdateFiles, if_pos ⟨List.length_pos.mpr h2, h1, h3⟩]
  · intro h
    rw [UpdateFiles, if_neg (by simp [h])]
    simp only [h, processUpdates]
    cases hpr : processRemoves info.removes idx fs with
    | mk idx3 fs3 => simp [hpr]

/-- Witness for C4: a one-update batch of declared size 5 against an
empty index and maximum 1 is rejected untouched; the removal-only
variant is not size-rejected. -/
theorem c4_size_limit_witness :
    UpdateFiles 1 (fun _ => "H") (fun _ => 5) 9 projEmptyW [] []
      ⟨[⟨"a.txt", "", 5⟩], []⟩ [("a.txt", [65, 66, 67, 68, 69])] =
      ⟨none, some .projectSize, [], [], projEmptyW⟩
    ∧ (UpdateFiles 1 (fun _ => "H") (fun _ => 5) 9 projEmptyW [] []
        ⟨[], ["a.txt"]⟩ []).err ≠ some .projectSize :=
  ⟨(c4_size_limit 1 (fun _ => "H") (fun _ => 5) 9 projEmptyW [] []
      ⟨[⟨"a.txt", "", 5⟩], []⟩ [("a.txt", [65, 66, 67, 68, 69])]).1
    (by decide) (by decide) (by decide),
   (c4_size_limit 1 (fun _ => "H") (fun _ => 5) 9 projEmptyW [] []
      ⟨[], ["a.txt"]⟩ []).2 rfl⟩

/-- C6 counterexample: a successful `UpdateFiles` whose batch contains
*no* updates (and no removals) still transitions the state from empty
to staged, refuting "on the first successful ApplyBatch with at least
one update". -/
theorem c6_counterexample :
    projEmptyW.state = "empty"
    ∧ (UpdateFiles 10 (fun _ => "H") (fun _ => 5) 9 projEmptyW [] [] ⟨[], []⟩ []).err = none
    ∧ (UpdateFiles 10 (fun _ => "H") (fun _ => 5) 9 projEmptyW [] []
        ⟨[], []⟩ []).files.isSome = true
    ∧ (UpdateFiles 10 (fun _ => "H") (fun _ => 5) 9 projEmptyW [] []
        ⟨[], []⟩ []).project.state = "staged" := by
  decide

/-- C6 amended: every `UpdateFiles` call that completes its batch
(returns a file listing) applies exactly the forward transition
empty→staged — with or without updates — and every aborted call leaves
the metadata record untouched; hence the state never moves backward. -/
theorem c6_state_forward (maxS : Int) (hashFn : List Nat → String) (mtimeAt : Nat → Int)
    (now : Int) (proj : ProjectInfo) (idx : FilesIndex) (fs : Fs) (info : FilesChanges)
    (next : List (String × List Nat)) :
    ((UpdateFiles maxS hashFn mtimeAt now proj idx fs info next).files.isSome = true →
      (UpdateFiles maxS hashFn mtimeAt now proj idx fs info next).project.state =
        (if proj.state = "empty" then "staged" else proj.state))
    ∧ ((UpdateFiles maxS hashFn mtimeAt now proj idx fs info next).files.isSome = false →
      (UpdateFiles maxS hashFn mtimeAt now proj idx fs info next).project = proj) := by
  rw [UpdateFiles]
  split
  · simp
  · split
    · simp
    · split
      simp

/-- Witness for C6 amended: a completed batch on a staged project
leaves the state staged (no backward move, no re-transition). -/
theorem c6_state_forward_witness :
    (UpdateFiles 10 (fun _ => "H") (fun _ => 5) 9 projStagedW [] [] ⟨[], []⟩ []).project.state =
      (if projStagedW.state = "empty" then "staged" else projStagedW.state) :=
  (c6_state_forward 10 (fun _ => "H") (fun _ => 5) 9 projStagedW [] [] ⟨[], []⟩ []).1
    (by decide)

/-- C3 counterexample: the standalone `RemoveFiles` errors on a target
that is absent on disk (its `Lstat` failure is returned unconditionally,
disk_storage.go:842-845), refuting no-op success for `RemoveFiles`. -/
theorem c3_counterexample :
    (RemoveFiles 9 projStagedW [("x.txt", fiA)] [] ["x.txt"]).err =
      some (.removeFailed "x.txt") := by
  decide

/-- C3 amended: in the removal phase of `UpdateFiles` a target absent on
disk is a no-op success that only drops the index entry, applying the
same removal twice has the identical index effect, and the filesystem is
untouched; the standalone `RemoveFiles`, by contrast, fails on the
absent target. -/
theorem c3_absent_removal (maxS : Int) (hashFn : List Nat → String) (mtimeAt : Nat → Int)
    (now now2 : Int) (proj : ProjectInfo) (idx : FilesIndex) (fs : Fs) (p : String)
    (next : List (String × List Nat)) (habs : fsLstatExists fs p = false) :
    (UpdateFiles maxS hashFn mtimeAt now proj idx fs ⟨[], [p]⟩ next).err = none
    ∧ (UpdateFiles maxS hashFn mtimeAt now proj idx fs ⟨[], [p]⟩ next).index =
        FilesIndex.Delete idx p
    ∧ (UpdateFiles maxS hashFn mtimeAt now proj idx fs ⟨[], [p]⟩ next).fs = fs
    ∧ (UpdateFiles maxS hashFn mtimeAt now2 proj (FilesIndex.Delete idx p) fs
        ⟨[], [p]⟩ next).index = FilesIndex.Delete idx p
    ∧ (RemoveFiles now proj idx fs [p]).err = some (.removeFailed p) := by
  refine ⟨?_, ?_, ?_, ?_, ?_⟩ <;>
    simp [UpdateFiles, RemoveFiles, processUpdates, processRemoves,
      processRemovesStandalone, habs, delete_delete]

/-- Witness for C3 amended at an absent `x.txt`. -/
theorem c3_absent_removal_witness :
    (UpdateFiles 0 (fun _ => "H") (fun _ => 5) 9 projStagedW [("x.txt", fiA)]
        [("keep.txt", ⟨[1], 7⟩)] ⟨[], ["x.txt"]⟩ []).err = none
    ∧ (UpdateFiles 0 (fun _ => "H") (fun _ => 5) 9 projStagedW [("x.txt", fiA)]
        [("keep.txt", ⟨[1], 7⟩)] ⟨[], ["x.txt"]⟩ []).index =
        FilesIndex.Delete [("x.txt", fiA)] "x.txt"
    ∧ (UpdateFiles 0 (fun _ => "H") (fun _ => 5) 9 projStagedW [("x.txt", fiA)]
        [("keep.txt", ⟨[1], 7⟩)] ⟨[], ["x.txt"]⟩ []).fs = [("keep.txt", ⟨[1], 7⟩)]
    ∧ (UpdateFiles 0 (fun _ => "H") (fun _ => 5) 11 projStagedW
        (FilesIndex.Delete [("x.txt", fiA)] "x.txt") [("keep.txt", ⟨[1], 7⟩)]
        ⟨[], ["x.txt"]⟩ []).index = FilesIndex.Delete [("x.txt", fiA)] "x.txt"
    ∧ (RemoveFiles 9 projStagedW [("x.txt", fiA)] [("keep.txt", ⟨[1], 7⟩)]
        ["x.txt"]).err = some (.removeFailed "x.txt") :=
  c3_absent_removal 0 (fun _ => "H") (fun _ => 5) 9 11 projStagedW [("x.txt", fiA)]
    [("keep.txt", ⟨[1], 7⟩)] "x.txt" [] (by decide)

/-- One file discovered by `createFilesMap` (the filesystem scan):
relative path with on-disk size and mtime. -/
structure ScanFile where
  path : String
  size : Int
  mtime : Int
deriving DecidableEq, Repr

/-- The state of the persisted snapshot file `filesmap.json`. -/
inductive SnapshotFile where
  | absent
  | content (j : Json)

/-- Go `loadFilesIndex` (lines 647-666): an absent snapshot file
(`os.ErrNotExist`) yields an *empty map with a nil error*; any other
open failure or a JSON decode failure yields an empty map with an
error; otherwise the decoded map. -/
def loadFilesIndex (sf : SnapshotFile) : FilesIndex × Option StorageErr :=
  match sf with
  | .absent => ([], none)
  | .content j =>
    match decodeIndexMap j with
    | some m => (m, none)
    | none => ([], some .parseFailed)

/-- The rebuild path of the cache loader (lines 144-164): scan result
plus one `Checksum` invocation per discovered file, aborting on the
first failure. Returns the built index (or none on failure) and the
number of checksum invocations made. -/
def rebuildLoop : List ScanFile → (String → Option String) → Option FilesIndex × Nat
  | [], _ => (some [], 0)
  | f :: rest, hashOf =>
    match hashOf f.path with
    | none => (none, 1)
    | some h =>
      match rebuildLoop rest hashOf with
      | (none, n) => (none, n + 1)
      | (some m, n) => (some ((f.path, ⟨h, f.size, f.mtime⟩) :: m), n + 1)

/-- Go `NewDiskStorage`'s `ttlcache.LoaderFunc` (lines 137-170): load
the snapshot; only when `loadFilesIndex` returns a non-nil error does
it rebuild by scanning and hashing. Returns the index the cache entry
gets (none models the loader returning nil) and the number of checksum
invocations. -/
def cacheLoader (sf : SnapshotFile) (scanned : List ScanFile)
    (hashOf : String → Option String) : Option FilesIndex × Nat :=
  match loadFilesIndex sf with
  | (m, none) => (some m, 0)
  | (_, some _) => rebuildLoop scanned hashOf

/-- The index a successful rebuild produces: every scanned file with
its computed checksum. -/
def rebuildIndexOf (scanned : List ScanFile) (hashOf : String → Option String) : FilesIndex :=
  scanned.map (fun f => (f.path, ⟨(hashOf f.path).getD "", f.size, f.mtime⟩))

theorem rebuildLoop_total (scanned : List ScanFile) (hashOf : String → Option String)
    (hf : ∀ p, (hashOf p).isSome = true) :
    rebuildLoop scanned hashOf = (some (rebuildIndexOf scanned hashOf), scanned.length) := by
  induction scanned with
  | nil => rfl
  | cons f rest ih =>
    cases hh : hashOf f.path with
    | none => exact absurd (hf f.path) (by simp [hh])
    | some h => simp [rebuildLoop, hh, ih, rebuildIndexOf]

/-- C5 counterexample: with the snapshot file absent and one file on
disk, the loader returns the *empty* index with zero checksum
invocations — it does not rebuild (second conjunct shows what the
rebuild would have produced). -/
theorem c5_counterexample :
    cacheLoader .absent [⟨"a.txt", 5, 100⟩] (fun _ => some "H") = (some [], 0)
    ∧ rebuildLoop [⟨"a.txt", 5, 100⟩] (fun _ => some "H") =
      (some [("a.txt", ⟨"H", 5, 100⟩)], 1) :=
  ⟨rfl, rfl⟩

/-- C5 amended: the loader reads the persisted snapshot first; an
*unparsable* snapshot triggers the full rebuild (scan plus one checksum
per discovered file), while an *absent* snapshot yields a fresh empty
index with no scanning or hashing at all. -/
theorem c5_loader_rebuild (scanned : List ScanFile) (hashOf : String → Option String)
    (j : Json) (hf : ∀ p, (hashOf p).isSome = true) (hj : decodeIndexMap j = none) :
    cacheLoader .absent scanned hashOf = (some [], 0)
    ∧ cacheLoader (.content j) scanned hashOf =
      (some (rebuildIndexOf scanned hashOf), scanned.length) := by
  refine ⟨rfl, ?_⟩
  simp [cacheLoader, loadFilesIndex, hj, rebuildLoop_total scanned hashOf hf]

/-- Witness for C5 amended: a garbled snapshot rebuilds the single
scanned file with one hash invocation; an absent one loads empty. -/
theorem c5_loader_rebuild_witness :
    cacheLoader .absent [⟨"a.txt", 5, 100⟩] (fun _ => some "NH") = (some [], 0)
    ∧ cacheLoader (.content (.str "garbled")) [⟨"a.txt", 5, 100⟩] (fun _ => some "NH") =
      (some (rebuildIndexOf [⟨"a.txt", 5, 100⟩] (fun _ => some "NH")), 1) :=
  ⟨(c5_loader_rebuild [⟨"a.txt", 5, 100⟩] (fun _ => some "NH") (.str "garbled")
      (fun _ => rfl) rfl).1,
   (c5_loader_rebuild [⟨"a.txt", 5, 100⟩] (fun _ => some "NH") (.str "garbled")
      (fun _ => rfl) rfl).2⟩

/-- Go struct `Info` (qgis meta fields: title, file, project_hash,
projection). -/
structure Info where
  title : String
  file : String
  projectHash : String
  projection : String
deriving DecidableEq, Repr

/-- Go `DiskStorage.UpdateMeta` (lines 920-940): parse the raw meta
(`metaParsed` is the parse outcome); on failure return
`ErrInvalidQgisMeta` leaving project.json untouched; on success persist
qgis.json (collaborator-owned) and rewrite project.json with new
qgisFile, projection, title and lastUpdate. -/
def UpdateMeta (pInfo : ProjectInfo) (metaParsed : Option Info) (now : Int) :
    Option StorageErr × ProjectInfo :=
  match metaParsed with
  | none => (some .invalidQgisMeta, pInfo)
  | some i =>
    (none,
     ⟨i.title, i.file, i.projection, pInfo.state, pInfo.size, pInfo.created, now,
      pInfo.thumbnail, pInfo.authentication⟩)

/-- C10: a successful `UpdateMeta` rewrites only title, qgisFile,
projection and lastUpdate; state, size, created, thumbnail and
authentication are unchanged. -/
theorem c10_updateMeta_frame (pInfo : ProjectInfo) (i : Info) (now : Int) :
    (UpdateMeta pInfo (some i) now).1 = none
    ∧ (UpdateMeta pInfo (some i) now).2.title = i.title
    ∧ (UpdateMeta pInfo (some i) now).2.qgisFile = i.file
    ∧ (UpdateMeta pInfo (some i) now).2.projection = i.projection
    ∧ (UpdateMeta pInfo (some i) now).2.lastUpdate = now
    ∧ (UpdateMeta pInfo (some i) now).2.state = pInfo.state
    ∧ (UpdateMeta pInfo (some i) now).2.size = pInfo.size
    ∧ (UpdateMeta pInfo (some i) now).2.created = pInfo.created
    ∧ (UpdateMeta pInfo (some i) now).2.thumbnail = pInfo.thumbnail
    ∧ (UpdateMeta pInfo (some i) now).2.authentication = pInfo.authentication :=
  ⟨rfl, rfl, rfl, rfl, rfl, rfl, rfl, rfl, rfl, rfl⟩

/-- The cache-hit test of `ListProjectFiles` (line 414-415): the index
holds a same-path entry whose recorded mtime equals the scanned mtime;
on a hit the cached hash is reused. -/
def cacheHit (idx : FilesIndex) (f : ScanFile) : Option String :=
  match FilesIndex.Get idx f.path with
  | some ci => if ci.mtime = f.mtime then some ci.hash else none
  | none => none

/-- Outcome of the per-file reconciliation loop: mutated index, paths
for which the Checksum Provider was invoked, listing built so far, and
the abort error if a checksum failed. -/
structure ReconcileResult where
  index : FilesIndex
  called : List String
  files : List ProjectFile
  err : Option StorageErr
deriving DecidableEq, Repr

/-- The reconciliation loop of `ListProjectFiles` with checksums
requested (lines 407-432): a cache hit reuses the cached hash without
invoking the provider; otherwise the provider runs (a failure aborts,
mutations so far persisting) and the fresh entry is written back. -/
def reconcile (hashOf : String → Option String) :
    List ScanFile → FilesIndex → ReconcileResult
  | [], idx => ⟨idx, [], [], none⟩
  | f :: rest, idx =>
    match cacheHit idx f with
    | some h =>
      let r := reconcile hashOf rest idx
      ⟨r.index, r.called, ⟨f.path, h, f.size, f.mtime⟩ :: r.files, r.err⟩
    | none =>
      match hashOf f.path with
      | none => ⟨idx, [f.path], [], some .checksumFailed⟩
      | some h =>
        let r := reconcile hashOf rest (FilesIndex.Set idx f.path ⟨h, f.size, f.mtime⟩)
        ⟨r.index, f.path :: r.called, ⟨f.path, h, f.size, f.mtime⟩ :: r.files, r.err⟩

/-- The tombstone-cleanup loop (lines 435-441): every index entry whose
path was not discovered by the scan is deleted (written as the filter
keeping discovered paths). -/
def purgeIndex : FilesIndex → List ScanFile → FilesIndex
  | [], _ => []
  | e :: rest, fm =>
    if fm.any (fun f => f.path == e.1) then e :: purgeIndex rest fm
    else purgeIndex rest fm

/-- Go pair `([]domain.ProjectFile, error)` of `ListProjectFiles` plus
the mutated index and the provider-invocation log. -/
structure ListResult where
  files : Option (List ProjectFile)
  index : FilesIndex
  called : List String
deriving DecidableEq, Repr

/-- Go `DiskStorage.ListProjectFiles` (lines 391-453): scan result
`fm`, reconciliation when checksums are requested, then tombstone
cleanup (which runs regardless of the checksum flag; the size
re-persist is collaborator bookkeeping outside the claims). -/
def ListProjectFiles (hashOf : String → Option String) (fm : List ScanFile)
    (idx : FilesIndex) (checksum : Bool) : ListResult :=
  if checksum then
    match reconcile hashOf fm idx with
    | r =>
      match r.err with
      | some _ => ⟨none, r.index, r.called⟩
      | none => ⟨some r.files, purgeIndex r.index fm, r.called⟩
  else
    ⟨some (fm.map (fun f => ⟨f.path, "", f.size, f.mtime⟩)), purgeIndex idx fm, []⟩

theorem cacheHit_set_ne (idx : FilesIndex) (q : String) (v : FileInfo) (f : ScanFile)
    (hne : f.path ≠ q) :
    cacheHit (FilesIndex.Set idx q v) f = cacheHit idx f := by
  rw [cacheHit, get_set, if_neg hne, cacheHit]

theorem reconcile_cons_hit (hashOf : String → Option String) (f0 : ScanFile)
    (rest : List ScanFile) (idx : FilesIndex) (h0 : String)
    (hc : cacheHit idx f0 = some h0) :
    reconcile hashOf (f0 :: rest) idx =
      ⟨(reconcile hashOf rest idx).index, (reconcile hashOf rest idx).called,
       ⟨f0.path, h0, f0.size, f0.mtime⟩ :: (reconcile hashOf rest idx).files,
       (reconcile hashOf rest idx).err⟩ := by
  simp [reconcile, hc]

theorem reconcile_cons_miss (hashOf : String → Option String) (f0 : ScanFile)
    (rest : List ScanFile) (idx : FilesIndex) (h0 : String)
    (hc : cacheHit idx f0 = none) (hh : hashOf f0.path = some h0) :
    reconcile hashOf (f0 :: rest) idx =
      ⟨(reconcile hashOf rest (FilesIndex.Set idx f0.path ⟨h0, f0.size, f0.mtime⟩)).index,
       f0.path ::
         (reconcile hashOf rest (FilesIndex.Set idx f0.path ⟨h0, f0.size, f0.mtime⟩)).called,
       ⟨f0.path, h0, f0.size, f0.mtime⟩ ::
         (reconcile hashOf rest (FilesIndex.Set idx f0.path ⟨h0, f0.size, f0.mtime⟩)).files,
       (reconcile hashOf rest (FilesIndex.Set idx f0.path ⟨h0, f0.size, f0.mtime⟩)).err⟩ := by
  simp [reconcile, hc, hh]

theorem reconcile_spec (hashOf : String → Option String)
    (hf : ∀ p, (hashOf p).isSome = true) :
    ∀ (fm : List ScanFile) (idx : FilesIndex), (fm.map ScanFile.path).Nodup →
      (reconcile hashOf fm idx).err = none
      ∧ (∀ p, p ∈ (reconcile hashOf fm idx).called → p ∈ fm.map ScanFile.path)
      ∧ (∀ p, ¬ p ∈ fm.map ScanFile.path →
          FilesIndex.Get (reconcile hashOf fm idx).index p = FilesIndex.Get idx p)
      ∧ (∀ f, f ∈ fm →
          (f.path ∈ (reconcile hashOf fm idx).called ↔ cacheHit idx f = none))
      ∧ (∀ f, f ∈ fm → ∀ h, cacheHit idx f = some h →
          (⟨f.path, h, f.size, f.mtime⟩ : ProjectFile) ∈ (reconcile hashOf fm idx).files)
      ∧ (∀ f, f ∈ fm → cacheHit idx f = none →
          FilesIndex.Get (reconcile hashOf fm idx).index f.path =
            some ⟨(hashOf f.path).getD "", f.size, f.mtime⟩) := by
  intro fm
  induction fm with
  | nil =>
    intro idx _
    exact ⟨rfl, by simp [reconcile], fun p _ => rfl, by simp, by simp, by simp⟩
  | cons f0 rest ih =>
    intro idx hnd
    rw [List.map_cons, List.nodup_cons] at hnd
    obtain ⟨hnd0, hndr⟩ := hnd
    cases hc : cacheHit idx f0 with
    | some h0 =>
      obtain ⟨e1, e2, e3, e4, e5, e6⟩ := ih idx hndr
      rw [reconcile_cons_hit hashOf f0 rest idx h0 hc]
      dsimp only
      refine ⟨e1, ?_, ?_, ?_, ?_, ?_⟩
      · intro p hp
        simp only [List.map_cons, List.mem_cons]
        exact Or.inr (e2 p hp)
      · intro p hp
        simp only [List.map_cons, List.mem_cons] at hp
        push_neg at hp
        exact e3 p hp.2
      · intro f hfm
        rcases List.mem_cons.mp hfm with rfl | hfr
        · constructor
          · intro hin
            exact absurd (e2 _ hin) hnd0
          · intro hnone
            rw [hc] at hnone
            cases hnone
        · exact e4 f hfr
      · intro f hfm h hh
        rcases List.mem_cons.mp hfm with rfl | hfr
        · rw [hc] at hh
          obtain rfl : h0 = h := Option.some.inj hh
          exact List.mem_cons_self _ _
        · exact List.mem_cons_of_mem _ (e5 f hfr h hh)
      · intro f hfm hcm
        rcases List.mem_cons.mp hfm with rfl | hfr
        · rw [hc] at hcm
          cases hcm
        · exact e6 f hfr hcm
    | none =>
      have hsome := hf f0.path
      cases hh : hashOf f0.path with
      | none =>
        rw [hh] at hsome
        simp at hsome
      | some h0 =>
        obtain ⟨e1, e2, e3, e4, e5, e6⟩ :=
          ih (FilesIndex.Set idx f0.path ⟨h0, f0.size, f0.mtime⟩) hndr
        rw [reconcile_cons_miss hashOf f0 rest idx h0 hc hh]
        dsimp only
        have hne : ∀ f, f ∈ rest → f.path ≠ f0.path := by
          intro f hfr heq
          exact hnd0 (heq ▸ List.mem_map_of_mem ScanFile.path hfr)
        refine ⟨e1, ?_, ?_, ?_, ?_, ?_⟩
        · intro p hp
          simp only [List.map_cons, List.mem_cons]
          rcases List.mem_cons.mp hp with rfl | hp2
          · exact Or.inl rfl
          · exact Or.inr (e2 p hp2)
        · intro p hp
          simp only [List.map_cons, List.mem_cons] at hp
          push_neg at hp
          rw [e3 p hp.2, get_set, if_neg hp.1]
        · intro f hfm
          rcases List.mem_cons.mp hfm with rfl | hfr
          · exact ⟨fun _ => hc, fun _ => List.mem_cons_self _ _⟩
          · have hch := cacheHit_set_ne idx f0.path ⟨h0, f0.size, f0.mtime⟩ f (hne f hfr)
            constructor
            · intro hin
              rcases List.mem_cons.mp hin with heq | hin2
              · exact absurd heq (hne f hfr)
              · rw [← hch]
                exact (e4 f hfr).mp hin2
            · intro hnone
              exact List.mem_cons_of_mem _ ((e4 f hfr).mpr (hch.trans hnone))
        · intro f hfm h hh2
          rcases List.mem_cons.mp hfm with rfl | hfr
          · rw [hc] at hh2
            cases hh2
          · have hch : cacheHit (FilesIndex.Set idx f0.path ⟨h0, f0.size, f0.mtime⟩) f =
                some h := by
              rw [cacheHit_set_ne idx f0.path _ f (hne f hfr)]
              exact hh2
            exact List.mem_cons_of_mem _ (e5 f hfr h hch)
        · intro f hfm hcm
          rcases List.mem_cons.mp hfm with rfl | hfr
          · rw [e3 f.path hnd0, get_set, if_pos rfl, hh]
            rfl
          · have hch : cacheHit (FilesIndex.Set idx f0.path ⟨h0, f0.size, f0.mtime⟩) f =
                none := by
              rw [cacheHit_set_ne idx f0.path _ f (hne f hfr)]
              exact hcm
            exact e6 f hfr hch

theorem get_purge (idx : FilesIndex) (fm : List ScanFile) (p : String) :
    FilesIndex.Get (purgeIndex idx fm) p =
      if p ∈ fm.map ScanFile.path then FilesIndex.Get idx p else none := by
  induction idx with
  | nil =>
    by_cases hm : p ∈ fm.map ScanFile.path <;> simp [purgeIndex, FilesIndex.Get, hm]
  | cons e rest ih =>
    have hkeep : (fm.any (fun f => f.path == e.1) = true) ↔ e.1 ∈ fm.map ScanFile.path := by
      simp [List.any_eq_true, List.mem_map]
    rw [purgeIndex]
    by_cases hk : e.1 ∈ fm.map ScanFile.path
    · rw [if_pos (hkeep.mpr hk), FilesIndex.Get]
      by_cases hep : e.1 = p
      · rw [if_pos hep, if_pos (hep ▸ hk), FilesIndex.Get, if_pos hep]
      · rw [if_neg hep, ih]
        by_cases hm : p ∈ fm.map ScanFile.path
        · rw [if_pos hm, if_pos hm, FilesIndex.Get, if_neg hep]
        · rw [if_neg hm, if_neg hm]
    · rw [if_neg (fun h => hk (hkeep.mp h)), ih]
      by_cases hm : p ∈ fm.map ScanFile.path
      · rw [if_pos hm, if_pos hm, FilesIndex.Get,
          if_neg (fun hep => hk (by rw [hep]; exact hm))]
      · rw [if_neg hm, if_neg hm]

/-- C7: with checksums requested and every provider call succeeding, the
provider is invoked exactly for the discovered files with no same-path
same-mtime index entry (others reuse the cached hash in the returned
listing), each recomputed checksum is written back into the index, and
after reconciliation every index entry whose path was not discovered is
purged. Scan paths are distinct (Go map keys). -/
theorem c7_list_reconcile (hashOf : String → Option String) (fm : List ScanFile)
    (idx : FilesIndex) (hf : ∀ p, (hashOf p).isSome = true)
    (hnd : (fm.map ScanFile.path).Nodup) :
    (∀ f, f ∈ fm →
      (f.path ∈ (ListProjectFiles hashOf fm idx true).called ↔ cacheHit idx f = none))
    ∧ (∀ f, f ∈ fm → ∀ h, cacheHit idx f = some h →
        (⟨f.path, h, f.size, f.mtime⟩ : ProjectFile) ∈
          ((ListProjectFiles hashOf fm idx true).files.getD []))
    ∧ (∀ f, f ∈ fm → cacheHit idx f = none →
        FilesIndex.Get (ListProjectFiles hashOf fm idx true).index f.path =
          some ⟨(hashOf f.path).getD "", f.size, f.mtime⟩)
    ∧ (∀ p, (FilesIndex.Get (ListProjectFiles hashOf fm idx true).index p).isSome = true →
        p ∈ fm.map ScanFile.path) := by
  obtain ⟨e1, e2, e3, e4, e5, e6⟩ := reconcile_spec hashOf hf fm idx hnd
  have hlpf : ListProjectFiles hashOf fm idx true =
      ⟨some (reconcile hashOf fm idx).files,
       purgeIndex (reconcile hashOf fm idx).index fm,
       (reconcile hashOf fm idx).called⟩ := by
    simp [ListProjectFiles, e1]
  rw [hlpf]
  dsimp only
  refine ⟨?_, ?_, ?_, ?_⟩
  · exact e4
  · intro f hfm h hh
    exact e5 f hfm h hh
  · intro f hfm hcm
    rw [get_purge, if_pos (List.mem_map_of_mem ScanFile.path hfm)]
    exact e6 f hfm hcm
  · intro p hp
    rw [get_purge] at hp
    by_cases hm : p ∈ fm.map ScanFile.path
    · exact hm
    · rw [if_neg hm] at hp
      simp at hp

/-- Witness for C7: `a.txt` is a cache hit (identical mtime, provider
not invoked), `b.txt` is a miss whose fresh entry is written back. -/
theorem c7_list_reconcile_witness :
    ((⟨"a.txt", 10, 100⟩ : ScanFile).path ∈
        (ListProjectFiles (fun _ => some "NH") [⟨"a.txt", 10, 100⟩, ⟨"b.txt", 5, 200⟩]
          [("a.txt", ⟨"H1", 10, 100⟩), ("gone.txt", ⟨"H2", 1, 1⟩)] true).called ↔
      cacheHit [("a.txt", ⟨"H1", 10, 100⟩), ("gone.txt", ⟨"H2", 1, 1⟩)]
        ⟨"a.txt", 10, 100⟩ = none)
    ∧ FilesIndex.Get
        (ListProjectFiles (fun _ => some "NH") [⟨"a.txt", 10, 100⟩, ⟨"b.txt", 5, 200⟩]
          [("a.txt", ⟨"H1", 10, 100⟩), ("gone.txt", ⟨"H2", 1, 1⟩)] true).index
        (⟨"b.txt", 5, 200⟩ : ScanFile).path =
      some ⟨((fun _ => some "NH") (⟨"b.txt", 5, 200⟩ : ScanFile).path).getD "", 5, 200⟩ :=
  ⟨(c7_list_reconcile (fun _ => some "NH") [⟨"a.txt", 10, 100⟩, ⟨"b.txt", 5, 200⟩]
      [("a.txt", ⟨"H1", 10, 100⟩), ("gone.txt", ⟨"H2", 1, 1⟩)] (fun _ => rfl)
      (by decide)).1 ⟨"a.txt", 10, 100⟩ (by decide),
   (c7_list_reconcile (fun _ => some "NH") [⟨"a.txt", 10, 100⟩, ⟨"b.txt", 5, 200⟩]
      [("a.txt", ⟨"H1", 10, 100⟩), ("gone.txt", ⟨"H2", 1, 1⟩)] (fun _ => rfl)
      (by decide)).2.2.1 ⟨"b.txt", 5, 200⟩ (by decide) (by decide)⟩
